import Mathlib

/-!
Shallow embedding of the monthly cost-projection aggregator implemented in
`src/src/components/proposals/ProposalTimeline.tsx`.

Dates are modelled at calendar-day granularity as triples (year, month, day)
with JavaScript's 0-based months; comparison of valid calendar dates by
timestamp coincides with lexicographic comparison of the triples.
JavaScript `setMonth` day-overflow (e.g. Jan 31 + 1 month = Mar 2/3) is
modelled explicitly in `addMonths`.  A possibly-invalid JavaScript `Date`
value (the result of `new Date(string)`) is an `Option CalDate`, `none`
standing for an Invalid Date whose timestamp is NaN: every `<=` comparison
against NaN is false, which `jsDateLe` reproduces.  An optional date field
of a circuit is therefore `Option (Option CalDate)`: the outer `none` is an
absent (falsy) field, `some none` a present but unparsable date string.
Monetary values (JS numbers) are modelled as rationals.
-/

structure CalDate where
  year : Int
  month : Nat
  day : Nat
deriving DecidableEq

def isLeapYear (y : Int) : Bool :=
  (y % 4 == 0 && y % 100 != 0) || y % 400 == 0

def daysInMonth (y : Int) (m : Nat) : Nat :=
  if m = 1 then (if isLeapYear y then 29 else 28)
  else if m = 3 ∨ m = 5 ∨ m = 8 ∨ m = 10 then 30
  else 31

/-- A well-formed calendar date: month index 0..11, day within the month. -/
def CalDate.Valid (d : CalDate) : Prop :=
  d.month < 12 ∧ 1 ≤ d.day ∧ d.day ≤ daysInMonth d.year d.month

instance (d : CalDate) : Decidable d.Valid := by
  unfold CalDate.Valid; infer_instance

/-- JavaScript `date.setMonth(date.getMonth() + i)`: normalize the month,
then let an overflowing day-of-month roll into the following month. -/
def addMonths (d : CalDate) (i : Nat) : CalDate :=
  let m := d.month + i
  let y := d.year + ((m / 12 : Nat) : Int)
  let mo := m % 12
  let dim := daysInMonth y mo
  if d.day ≤ dim then ⟨y, mo, d.day⟩
  else if mo = 11 then ⟨y + 1, 0, d.day - dim⟩
  else ⟨y, mo + 1, d.day - dim⟩

/-- Chronological comparison of two valid dates (JS `Date` `<=` at day
granularity): lexicographic on (year, month, day). -/
def dateLe (a b : CalDate) : Bool :=
  if a.year < b.year then true
  else if b.year < a.year then false
  else if a.month < b.month then true
  else if b.month < a.month then false
  else decide (a.day ≤ b.day)

/-- JS `<=` on possibly-invalid `Date` values: any comparison with an
Invalid Date (NaN timestamp) is false. -/
def jsDateLe (a b : Option CalDate) : Bool :=
  match a, b with
  | some x, some y => dateLe x y
  | _, _ => false

structure Circuit where
  id : String
  type : String
  monthlycost : ℚ
  contract_start_date : Option (Option CalDate)
  contract_end_date : Option (Option CalDate)
deriving DecidableEq

/-- Embedding of `isCircuitActive` (ProposalTimeline.tsx lines 36-48). -/
def isCircuitActive (c : Circuit) (monthDate : CalDate) : Bool :=
  match c.contract_start_date with
  | none => false
  | some startDate =>
    match c.contract_end_date with
    | none => jsDateLe startDate (some monthDate)
    | some endDate =>
        jsDateLe startDate (some monthDate) && jsDateLe (some monthDate) endDate

/-- Label of the month `i` months after `startDate`: the year string for
January, the empty string otherwise (body of the loop in
`generateMonthLabels`, lines 27-32). -/
def monthLabel (startDate : CalDate) (i : Nat) : String :=
  let date := addMonths startDate i
  if date.month = 0 then toString date.year else ""

/-- Embedding of `generateMonthLabels` (lines 25-34). -/
def generateMonthLabels (startDate : CalDate) : List String :=
  (List.range 36).map (monthLabel startDate)

structure MonthData where
  month : String
  existingMpls : ℚ
  existingDia : ℚ
  existingBroadband : ℚ
  existingLte : ℚ
  proposedMpls : ℚ
  proposedDia : ℚ
  proposedBroadband : ℚ
  proposedLte : ℚ
deriving DecidableEq

/-- The regex `[^a-zA-Z]` keeps exactly ASCII letters. -/
def jsLetter (c : Char) : Bool :=
  (decide ('a' ≤ c) && decide (c ≤ 'z')) || (decide ('A' ≤ c) && decide (c ≤ 'Z'))

/-- Embedding of `circuit.type.replace(/[^a-zA-Z]/g, '')` (lines 103, 113). -/
def normalizeType (s : String) : String :=
  String.mk (s.data.filter jsLetter)

/-- Embedding of `if (key in monthData) monthData[key] += cost` (lines
104-105, 114-115): the derived key always begins with `existing` or
`proposed`, so the only own properties of `monthData` it can name are the
eight numeric fields; an unmatched key leaves the record unchanged. -/
def addToField (md : MonthData) (key : String) (cost : ℚ) : MonthData :=
  if key = "existingMpls" then { md with existingMpls := md.existingMpls + cost }
  else if key = "existingDia" then { md with existingDia := md.existingDia + cost }
  else if key = "existingBroadband" then { md with existingBroadband := md.existingBroadband + cost }
  else if key = "existingLte" then { md with existingLte := md.existingLte + cost }
  else if key = "proposedMpls" then { md with proposedMpls := md.proposedMpls + cost }
  else if key = "proposedDia" then { md with proposedDia := md.proposedDia + cost }
  else if key = "proposedBroadband" then { md with proposedBroadband := md.proposedBroadband + cost }
  else if key = "proposedLte" then { md with proposedLte := md.proposedLte + cost }
  else md

/-- Reading the numeric field named by `key` (0 for a key that is not one
of the eight numeric fields). -/
def getField (md : MonthData) (key : String) : ℚ :=
  if key = "existingMpls" then md.existingMpls
  else if key = "existingDia" then md.existingDia
  else if key = "existingBroadband" then md.existingBroadband
  else if key = "existingLte" then md.existingLte
  else if key = "proposedMpls" then md.proposedMpls
  else if key = "proposedDia" then md.proposedDia
  else if key = "proposedBroadband" then md.proposedBroadband
  else if key = "proposedLte" then md.proposedLte
  else 0

def recognizedKeys : List String :=
  ["existingMpls", "existingDia", "existingBroadband", "existingLte",
   "proposedMpls", "proposedDia", "proposedBroadband", "proposedLte"]

/-- One `forEach` accumulation pass (lines 101-108 with `pfx = "existing"`,
lines 111-118 with `pfx = "proposed"`). -/
def accumulate (pfx : String) (circuits : List Circuit) (monthDate : CalDate)
    (md : MonthData) : MonthData :=
  circuits.foldl (fun acc c =>
    if isCircuitActive c monthDate then
      addToField acc (pfx ++ normalizeType c.type) c.monthlycost
    else acc) md

def initMonthData (label : String) : MonthData :=
  ⟨label, 0, 0, 0, 0, 0, 0, 0, 0⟩

/-- Body of `months.map((month, index) => ...)` (lines 83-121): initialize
the bucket, run the existing pass, then the proposed pass. -/
def buildMonth (label : String) (monthDate : CalDate)
    (existing proposed : List Circuit) : MonthData :=
  accumulate "proposed" proposed monthDate
    (accumulate "existing" existing monthDate (initMonthData label))

/-- The aggregation computed by the `useMemo` body (lines 80-121) once both
circuit lists are available. -/
def aggregate (existing proposed : List Circuit) (startDate : CalDate) :
    List MonthData :=
  ((generateMonthLabels startDate).enum).map (fun p =>
    buildMonth p.2 (addMonths startDate p.1) existing proposed)

/-- Bucket at index `i` of an aggregation result. -/
def bucketAt (l : List MonthData) (i : Nat) : MonthData :=
  l.getD i (initMonthData "")

/-- Linearization of a date triple: order-preserving on triples with
month < 12 and day <= 31. -/
def dateKey (d : CalDate) : Int :=
  (d.year * 12 + d.month) * 32 + d.day

/-- The four existing-set accumulator fields of a bucket. -/
def existingFields (md : MonthData) : ℚ × ℚ × ℚ × ℚ :=
  (md.existingMpls, md.existingDia, md.existingBroadband, md.existingLte)

/-- The four proposed-set accumulator fields of a bucket. -/
def proposedFields (md : MonthData) : ℚ × ℚ × ℚ × ℚ :=
  (md.proposedMpls, md.proposedDia, md.proposedBroadband, md.proposedLte)

/-- All eight numeric fields of a bucket are non-negative. -/
def AllFieldsNonneg (md : MonthData) : Prop :=
  0 ≤ md.existingMpls ∧ 0 ≤ md.existingDia ∧ 0 ≤ md.existingBroadband ∧
    0 ≤ md.existingLte ∧ 0 ≤ md.proposedMpls ∧ 0 ≤ md.proposedDia ∧
    0 ≤ md.proposedBroadband ∧ 0 ≤ md.proposedLte

instance (md : MonthData) : Decidable (AllFieldsNonneg md) := by
  unfold AllFieldsNonneg; infer_instance

/-- Anchor date of the spec's worked example: 2024-01-15 (month index 0 is January). -/
def anchor2024 : CalDate := ⟨2024, 0, 15⟩

/-- The worked example's item with its literal type string "MPLS". -/
def circuitMPLS : Circuit :=
  ⟨"a1", "MPLS", 100, some (some ⟨2024, 0, 15⟩), some (some ⟨2024, 2, 15⟩)⟩

/-- The same item with type string "Mpls", whose stripped form does match the
camel-case field suffix of `existingMpls`. -/
def circuitMpls : Circuit :=
  ⟨"a1", "Mpls", 100, some (some ⟨2024, 0, 15⟩), some (some ⟨2024, 2, 15⟩)⟩

/-- An item of the unrecognized type of the spec's example. -/
def circuitDIA : Circuit :=
  ⟨"a2", "Dedicated Internet Access", 42, some (some ⟨2024, 0, 15⟩), none⟩

/-- An item with no start date. -/
def circuitNoStart : Circuit := ⟨"a3", "Mpls", 10, none, none⟩

/-- An item whose end-date string is present but unparsable (Invalid Date). -/
def circuitBadEnd : Circuit := ⟨"a4", "Mpls", 10, some (some ⟨2024, 0, 15⟩), some none⟩

/-- An item whose contract range is inverted: start 2024-03-15, end 2024-01-15. -/
def circuitInverted : Circuit :=
  ⟨"a5", "Mpls", 10, some (some ⟨2024, 2, 15⟩), some (some ⟨2024, 0, 15⟩)⟩

/-- An open-ended item starting at month index 1 of `anchor2024`. -/
def circuitFromMonth1 : Circuit :=
  ⟨"a6", "Dia", 75, some (some (addMonths anchor2024 1)), none⟩

/-! ### Ordering of valid dates via a linear key -/

theorem daysInMonth_bounds (y : Int) (m : Nat) :
    28 ≤ daysInMonth y m ∧ daysInMonth y m ≤ 31 := by
  unfold daysInMonth
  split_ifs <;> omega

theorem dateLe_iff_dateKey {a b : CalDate} (ha : a.month < 12) (hb : b.month < 12)
    (ha31 : a.day ≤ 31) (hb31 : b.day ≤ 31) :
    dateLe a b = true ↔ dateKey a ≤ dateKey b := by
  unfold dateLe dateKey
  split_ifs <;> simp_all <;> omega

theorem addMonths_bounds (d : CalDate) (hd : d.Valid) (i : Nat) :
    (addMonths d i).month < 12 ∧ 1 ≤ (addMonths d i).day ∧ (addMonths d i).day ≤ 31 := by
  obtain ⟨hm, hd1, hd2⟩ := hd
  have h31 : d.day ≤ 31 :=
    le_trans hd2 (daysInMonth_bounds d.year d.month).2
  have hdim := daysInMonth_bounds (d.year + (((d.month + i) / 12 : Nat) : Int)) ((d.month + i) % 12)
  simp only [addMonths]
  split_ifs <;> simp_all <;> omega

theorem dateKey_addMonths (d : CalDate) (hd : d.Valid) (i : Nat) :
    dateKey (addMonths d i) = (d.year * 12 + d.month + i) * 32 + d.day ∨
    ∃ dim : Nat, 28 ≤ dim ∧ dim < d.day ∧
      dateKey (addMonths d i) = (d.year * 12 + d.month + i + 1) * 32 + ((d.day : Int) - dim) := by
  have hmod : (d.month + i) % 12 + 12 * ((d.month + i) / 12) = d.month + i :=
    Nat.mod_add_div _ _
  simp only [addMonths, dateKey]
  generalize hg : daysInMonth (d.year + (((d.month + i) / 12 : Nat) : Int)) ((d.month + i) % 12) = dim
  have hdim : 28 ≤ dim ∧ dim ≤ 31 := hg ▸ daysInMonth_bounds _ _
  split_ifs with h1 h2
  · left
    push_cast
    omega
  · right
    refine ⟨dim, hdim.1, by omega, ?_⟩
    push_cast
    omega
  · right
    refine ⟨dim, hdim.1, by omega, ?_⟩
    push_cast
    omega

theorem dateKey_addMonths_lt (d : CalDate) (hd : d.Valid) (i : Nat) :
    dateKey (addMonths d i) < dateKey (addMonths d (i + 1)) := by
  have h31 : d.day ≤ 31 :=
    le_trans hd.2.2 (daysInMonth_bounds d.year d.month).2
  have h1 : 1 ≤ d.day := hd.2.1
  rcases dateKey_addMonths d hd i with hi | ⟨dim1, hb1, hl1, hi⟩ <;>
    rcases dateKey_addMonths d hd (i + 1) with hj | ⟨dim2, hb2, hl2, hj⟩ <;>
      rw [hi, hj] <;> push_cast <;> omega

theorem dateKey_addMonths_strictMono (d : CalDate) (hd : d.Valid) :
    StrictMono (fun i => dateKey (addMonths d i)) :=
  strictMono_nat_of_lt_succ (fun i => dateKey_addMonths_lt d hd i)

theorem dateLe_addMonths_iff (d : CalDate) (hd : d.Valid) (i j : Nat) :
    (dateLe (addMonths d i) (addMonths d j) = true) ↔ i ≤ j := by
  have bi := addMonths_bounds d hd i
  have bj := addMonths_bounds d hd j
  rw [dateLe_iff_dateKey bi.1 bj.1 bi.2.2 bj.2.2]
  exact (dateKey_addMonths_strictMono d hd).le_iff_le

/-! ### The January label rule survives day-overflow -/

theorem addMonths_month_mod (d : CalDate) (hd : d.Valid) (i : Nat) :
    ((addMonths d i).month = 0 ↔ (d.month + i) % 12 = 0) ∧
    ((d.month + i) % 12 = 0 →
      (addMonths d i).year = d.year + (((d.month + i) / 12 : Nat) : Int)) := by
  obtain ⟨hm, hd1, hd2⟩ := hd
  have h31 : d.day ≤ 31 := le_trans hd2 (daysInMonth_bounds d.year d.month).2
  simp only [addMonths]
  generalize hg : daysInMonth (d.year + (((d.month + i) / 12 : Nat) : Int)) ((d.month + i) % 12) = dim
  have hjan : (d.month + i) % 12 = 0 → dim = 31 := by
    intro h0
    rw [h0] at hg
    unfold daysInMonth at hg
    norm_num at hg
    omega
  split_ifs with h1 h2
  · simp
  · exfalso
    rw [h2] at hg
    unfold daysInMonth at hg
    norm_num at hg
    omega
  · dsimp only
    constructor
    · constructor
      · intro h
        omega
      · intro h0
        exact absurd (hjan h0) (by omega)
    · intro h0
      exact absurd (hjan h0) (by omega)

theorem monthLabel_eq (d : CalDate) (hd : d.Valid) (i : Nat) :
    monthLabel d i =
      if (d.month + i) % 12 = 0
      then toString (d.year + (((d.month + i) / 12 : Nat) : Int))
      else "" := by
  have hj := addMonths_month_mod d hd i
  simp only [monthLabel]
  by_cases h0 : (d.month + i) % 12 = 0
  · rw [if_pos h0, if_pos (hj.1.mpr h0), hj.2 h0]
  · rw [if_neg h0, if_neg (fun hc => h0 (hj.1.mp hc))]

/-! ### Accumulation lemmas -/

theorem accumulate_nil (pfx : String) (dt : CalDate) (md : MonthData) :
    accumulate pfx [] dt md = md := rfl

theorem accumulate_cons (pfx : String) (c : Circuit) (t : List Circuit)
    (dt : CalDate) (md : MonthData) :
    accumulate pfx (c :: t) dt md =
      accumulate pfx t dt
        (if isCircuitActive c dt
         then addToField md (pfx ++ normalizeType c.type) c.monthlycost
         else md) := rfl

theorem accumulate_append (pfx : String) (l₁ l₂ : List Circuit) (dt : CalDate)
    (md : MonthData) :
    accumulate pfx (l₁ ++ l₂) dt md = accumulate pfx l₂ dt (accumulate pfx l₁ dt md) := by
  simp only [accumulate, List.foldl_append]

set_option maxHeartbeats 4000000 in
theorem getField_addToField (md : MonthData) (key : String) (cost : ℚ) (k : String) :
    getField (addToField md key cost) k =
      getField md k + (if k = key ∧ key ∈ recognizedKeys then cost else 0) := by
  by_cases hk : k = key
  · subst hk
    rcases em (k ∈ recognizedKeys) with hmem | hmem
    · have hmem' := hmem
      simp only [recognizedKeys, List.mem_cons, List.not_mem_nil, or_false] at hmem'
      rcases hmem' with h | h | h | h | h | h | h | h <;> subst h <;> rfl
    · rw [if_neg (fun hC => hmem hC.2), add_zero]
      unfold addToField
      split_ifs <;> first | rfl | (exfalso; subst_vars; exact hmem (by decide))
  · rw [if_neg (fun hC => hk hC.1), add_zero]
    unfold addToField
    split_ifs with h1 h2 h3 h4 h5 h6 h7 h8
    · subst h1; unfold getField; split_ifs <;> rfl
    · subst h2; unfold getField; split_ifs <;> rfl
    · subst h3; unfold getField; split_ifs <;> rfl
    · subst h4; unfold getField; split_ifs <;> rfl
    · subst h5; unfold getField; split_ifs <;> rfl
    · subst h6; unfold getField; split_ifs <;> rfl
    · subst h7; unfold getField; split_ifs <;> rfl
    · subst h8; unfold getField; split_ifs <;> rfl
    · rfl

theorem getField_initMonthData (s k : String) : getField (initMonthData s) k = 0 := by
  unfold getField initMonthData
  split_ifs <;> rfl

theorem getField_step (md : MonthData) (c : Circuit) (dt : CalDate) (pfx k : String) :
    getField
        (if isCircuitActive c dt
         then addToField md (pfx ++ normalizeType c.type) c.monthlycost
         else md) k
      = getField md k +
        (if isCircuitActive c dt then
          (if k = pfx ++ normalizeType c.type ∧ (pfx ++ normalizeType c.type) ∈ recognizedKeys
           then c.monthlycost else 0)
         else 0) := by
  by_cases hA : isCircuitActive c dt
  · rw [if_pos hA, if_pos hA, getField_addToField]
  · rw [if_neg hA, if_neg hA, add_zero]

theorem getField_accumulate_pair (pfx : String) (l : List Circuit) (dt : CalDate)
    (md md' : MonthData) (k : String) :
    getField (accumulate pfx l dt md) k - getField (accumulate pfx l dt md') k
      = getField md k - getField md' k := by
  induction l generalizing md md' with
  | nil => rfl
  | cons c t ih =>
      rw [accumulate_cons, accumulate_cons, ih, getField_step, getField_step]
      ring

theorem getField_accumulate_insert (pfx : String) (l₁ l₂ : List Circuit) (c : Circuit)
    (dt : CalDate) (md : MonthData) (k : String) :
    getField (accumulate pfx (l₁ ++ c :: l₂) dt md) k
      = getField (accumulate pfx (l₁ ++ l₂) dt md) k +
        (if isCircuitActive c dt then
          (if k = pfx ++ normalizeType c.type ∧ (pfx ++ normalizeType c.type) ∈ recognizedKeys
           then c.monthlycost else 0)
         else 0) := by
  rw [accumulate_append, accumulate_append, accumulate_cons]
  have hp := getField_accumulate_pair pfx l₂ dt
    (if isCircuitActive c dt
     then addToField (accumulate pfx l₁ dt md) (pfx ++ normalizeType c.type) c.monthlycost
     else accumulate pfx l₁ dt md)
    (accumulate pfx l₁ dt md) k
  rw [getField_step] at hp
  linarith [hp]

/-! ### Bucket extraction -/

theorem length_aggregate (e p : List Circuit) (a : CalDate) :
    (aggregate e p a).length = 36 := by
  simp [aggregate, generateMonthLabels]

theorem bucketAt_aggregate (e p : List Circuit) (a : CalDate) (j : Nat) (hj : j < 36) :
    bucketAt (aggregate e p a) j = buildMonth (monthLabel a j) (addMonths a j) e p := by
  unfold bucketAt aggregate generateMonthLabels
  rw [List.getD_eq_getElem?_getD]
  simp [List.getElem?_map, List.getElem?_enum, List.getElem?_range, hj]

/-! ### Frame lemmas: the two passes write disjoint fields -/

theorem proposed_append_ne_existing (s t : String) :
    ("proposed" ++ s : String) ≠ "existing" ++ t := by
  intro h
  have hd := congrArg String.data h
  rw [String.data_append, String.data_append] at hd
  have hp : ("proposed" : String).data = ['p', 'r', 'o', 'p', 'o', 's', 'e', 'd'] := rfl
  have he : ("existing" : String).data = ['e', 'x', 'i', 's', 't', 'i', 'n', 'g'] := rfl
  rw [hp, he] at hd
  simp only [List.cons_append] at hd
  injection hd with h1 _
  exact absurd h1 (by decide)

theorem getField_addToField_ne (md : MonthData) (key : String) (cost : ℚ) (k : String)
    (h : k ≠ key) :
    getField (addToField md key cost) k = getField md k := by
  rw [getField_addToField, if_neg (fun hC => h hC.1), add_zero]

theorem getField_accumulate_ne (pfx : String) (l : List Circuit) (dt : CalDate)
    (md : MonthData) (k : String) (h : ∀ s : String, k ≠ pfx ++ s) :
    getField (accumulate pfx l dt md) k = getField md k := by
  induction l generalizing md with
  | nil => rfl
  | cons c t ih =>
      rw [accumulate_cons, ih]
      by_cases hA : isCircuitActive c dt
      · rw [if_pos hA, getField_addToField_ne _ _ _ _ (h _)]
      · rw [if_neg hA]

theorem month_addToField (md : MonthData) (key : String) (cost : ℚ) :
    (addToField md key cost).month = md.month := by
  unfold addToField
  split_ifs <;> rfl

theorem month_accumulate (pfx : String) (l : List Circuit) (dt : CalDate) (md : MonthData) :
    (accumulate pfx l dt md).month = md.month := by
  induction l generalizing md with
  | nil => rfl
  | cons c t ih =>
      rw [accumulate_cons, ih]
      by_cases hA : isCircuitActive c dt
      · rw [if_pos hA, month_addToField]
      · rw [if_neg hA]

theorem month_buildMonth (l : String) (dt : CalDate) (e p : List Circuit) :
    (buildMonth l dt e p).month = l := by
  unfold buildMonth
  rw [month_accumulate, month_accumulate]
  rfl

theorem existingFields_buildMonth (l : String) (dt : CalDate) (e p : List Circuit) :
    existingFields (buildMonth l dt e p) =
      existingFields (accumulate "existing" e dt (initMonthData l)) := by
  have h : ∀ k t : String,
      getField (buildMonth l dt e p) ("existing" ++ k) =
        getField (accumulate "existing" e dt (initMonthData l)) ("existing" ++ k) := by
    intro k t
    unfold buildMonth
    exact getField_accumulate_ne "proposed" p dt _ ("existing" ++ k)
      (fun s hs => proposed_append_ne_existing s k hs.symm)
  have h1 := h "Mpls" ""
  have h2 := h "Dia" ""
  have h3 := h "Broadband" ""
  have h4 := h "Lte" ""
  unfold existingFields
  rw [Prod.mk.injEq, Prod.mk.injEq, Prod.mk.injEq]
  exact ⟨h1, h2, h3, h4⟩

/-! ### Activity predicate case analysis -/

theorem isCircuitActive_none_start (c : Circuit) (m : CalDate)
    (h : c.contract_start_date = none) : isCircuitActive c m = false := by
  unfold isCircuitActive
  rw [h]

theorem isCircuitActive_invalid (c : Circuit) (m : CalDate)
    (h : c.contract_start_date = some none ∨ c.contract_end_date = some none) :
    isCircuitActive c m = false := by
  unfold isCircuitActive
  rcases h with h | h
  · rw [h]
    cases c.contract_end_date <;> rfl
  · rw [h]
    cases hs : c.contract_start_date with
    | none => rfl
    | some sd => cases sd <;> simp [jsDateLe]

theorem dateLe_trans {a b c : CalDate} (h1 : dateLe a b = true) (h2 : dateLe b c = true) :
    dateLe a c = true := by
  unfold dateLe at h1 h2 ⊢
  split_ifs at h1 h2 ⊢ <;> simp_all <;> omega

/-! ### Inserting a circuit that never contributes is a no-op -/

theorem addToField_notMem (md : MonthData) (key : String) (cost : ℚ)
    (h : key ∉ recognizedKeys) : addToField md key cost = md := by
  unfold addToField
  split_ifs <;> first | rfl | (exfalso; subst_vars; exact h (by decide))

theorem accumulate_insert_noop (pfx : String) (l₁ l₂ : List Circuit) (c : Circuit)
    (dt : CalDate) (md : MonthData)
    (hstep : ∀ m : MonthData,
      (if isCircuitActive c dt
       then addToField m (pfx ++ normalizeType c.type) c.monthlycost
       else m) = m) :
    accumulate pfx (l₁ ++ c :: l₂) dt md = accumulate pfx (l₁ ++ l₂) dt md := by
  rw [accumulate_append, accumulate_append, accumulate_cons, hstep]

theorem aggregate_insert_noop_existing (a : CalDate) (e₁ e₂ p : List Circuit) (c : Circuit)
    (hstep : ∀ (dt : CalDate) (m : MonthData),
      (if isCircuitActive c dt
       then addToField m ("existing" ++ normalizeType c.type) c.monthlycost
       else m) = m) :
    aggregate (e₁ ++ c :: e₂) p a = aggregate (e₁ ++ e₂) p a := by
  unfold aggregate
  apply List.map_congr_left
  intro pr _
  unfold buildMonth
  rw [accumulate_insert_noop _ _ _ _ _ _ (hstep _)]

theorem aggregate_insert_noop_proposed (a : CalDate) (e p₁ p₂ : List Circuit) (c : Circuit)
    (hstep : ∀ (dt : CalDate) (m : MonthData),
      (if isCircuitActive c dt
       then addToField m ("proposed" ++ normalizeType c.type) c.monthlycost
       else m) = m) :
    aggregate e (p₁ ++ c :: p₂) a = aggregate e (p₁ ++ p₂) a := by
  unfold aggregate
  apply List.map_congr_left
  intro pr _
  unfold buildMonth
  rw [accumulate_insert_noop _ _ _ _ _ _ (hstep _)]

/-! ### Which derived keys are recognized -/

theorem string_append_left_cancel {p s t : String} (h : p ++ s = p ++ t) : s = t := by
  have hd := congrArg String.data h
  rw [String.data_append, String.data_append] at hd
  exact String.ext (List.append_cancel_left hd)

theorem existing_key_mem (s : String) :
    (("existing" ++ s) ∈ recognizedKeys) ↔
      s = "Mpls" ∨ s = "Dia" ∨ s = "Broadband" ∨ s = "Lte" := by
  unfold recognizedKeys
  simp only [List.mem_cons, List.not_mem_nil, or_false]
  constructor
  · rintro (h | h | h | h | h | h | h | h)
    · exact Or.inl (string_append_left_cancel (h.trans (by decide)))
    · exact Or.inr (Or.inl (string_append_left_cancel (h.trans (by decide))))
    · exact Or.inr (Or.inr (Or.inl (string_append_left_cancel (h.trans (by decide)))))
    · exact Or.inr (Or.inr (Or.inr (string_append_left_cancel (h.trans (by decide)))))
    · exact absurd (h.trans (by decide)).symm (proposed_append_ne_existing "Mpls" s)
    · exact absurd (h.trans (by decide)).symm (proposed_append_ne_existing "Dia" s)
    · exact absurd (h.trans (by decide)).symm (proposed_append_ne_existing "Broadband" s)
    · exact absurd (h.trans (by decide)).symm (proposed_append_ne_existing "Lte" s)
  · rintro (h | h | h | h) <;> subst h <;> decide

theorem proposed_key_mem (s : String) :
    (("proposed" ++ s) ∈ recognizedKeys) ↔
      s = "Mpls" ∨ s = "Dia" ∨ s = "Broadband" ∨ s = "Lte" := by
  unfold recognizedKeys
  simp only [List.mem_cons, List.not_mem_nil, or_false]
  constructor
  · rintro (h | h | h | h | h | h | h | h)
    · exact absurd (h.trans (by decide)) (proposed_append_ne_existing s "Mpls")
    · exact absurd (h.trans (by decide)) (proposed_append_ne_existing s "Dia")
    · exact absurd (h.trans (by decide)) (proposed_append_ne_existing s "Broadband")
    · exact absurd (h.trans (by decide)) (proposed_append_ne_existing s "Lte")
    · exact Or.inl (string_append_left_cancel (h.trans (by decide)))
    · exact Or.inr (Or.inl (string_append_left_cancel (h.trans (by decide))))
    · exact Or.inr (Or.inr (Or.inl (string_append_left_cancel (h.trans (by decide)))))
    · exact Or.inr (Or.inr (Or.inr (string_append_left_cancel (h.trans (by decide)))))
  · rintro (h | h | h | h) <;> subst h <;> decide

theorem proposedFields_buildMonth (l : String) (dt : CalDate) (e e' p : List Circuit) :
    proposedFields (buildMonth l dt e p) = proposedFields (buildMonth l dt e' p) := by
  have h : ∀ (k : String) (ee : List Circuit),
      getField (buildMonth l dt ee p) ("proposed" ++ k) =
        getField (accumulate "proposed" p dt (initMonthData l)) ("proposed" ++ k) := by
    intro k ee
    have hpair := getField_accumulate_pair "proposed" p dt
      (accumulate "existing" ee dt (initMonthData l)) (initMonthData l) ("proposed" ++ k)
    have hfr : getField (accumulate "existing" ee dt (initMonthData l)) ("proposed" ++ k)
        = getField (initMonthData l) ("proposed" ++ k) :=
      getField_accumulate_ne "existing" ee dt _ _ (fun s => proposed_append_ne_existing k s)
    unfold buildMonth
    linarith [hpair, hfr]
  have h1 := (h "Mpls" e).trans (h "Mpls" e').symm
  have h2 := (h "Dia" e).trans (h "Dia" e').symm
  have h3 := (h "Broadband" e).trans (h "Broadband" e').symm
  have h4 := (h "Lte" e).trans (h "Lte" e').symm
  unfold proposedFields
  rw [Prod.mk.injEq, Prod.mk.injEq, Prod.mk.injEq]
  exact ⟨h1, h2, h3, h4⟩

/-! ### Inserting one circuit: effect on a single bucket field -/

theorem getField_bucket_insert_existing (a : CalDate) (e₁ e₂ p : List Circuit) (c : Circuit)
    (j : Nat) (hj : j < 36) (k : String) :
    getField (bucketAt (aggregate (e₁ ++ c :: e₂) p a) j) k
      = getField (bucketAt (aggregate (e₁ ++ e₂) p a) j) k +
        (if isCircuitActive c (addMonths a j) then
          (if k = "existing" ++ normalizeType c.type ∧
              ("existing" ++ normalizeType c.type) ∈ recognizedKeys
           then c.monthlycost else 0)
         else 0) := by
  rw [bucketAt_aggregate _ _ _ _ hj, bucketAt_aggregate _ _ _ _ hj]
  unfold buildMonth
  have hpair := getField_accumulate_pair "proposed" p (addMonths a j)
    (accumulate "existing" (e₁ ++ c :: e₂) (addMonths a j) (initMonthData (monthLabel a j)))
    (accumulate "existing" (e₁ ++ e₂) (addMonths a j) (initMonthData (monthLabel a j))) k
  have hins := getField_accumulate_insert "existing" e₁ e₂ c (addMonths a j)
    (initMonthData (monthLabel a j)) k
  linarith [hpair, hins]

theorem getField_bucket_insert_proposed (a : CalDate) (e p₁ p₂ : List Circuit) (c : Circuit)
    (j : Nat) (hj : j < 36) (k : String) :
    getField (bucketAt (aggregate e (p₁ ++ c :: p₂) a) j) k
      = getField (bucketAt (aggregate e (p₁ ++ p₂) a) j) k +
        (if isCircuitActive c (addMonths a j) then
          (if k = "proposed" ++ normalizeType c.type ∧
              ("proposed" ++ normalizeType c.type) ∈ recognizedKeys
           then c.monthlycost else 0)
         else 0) := by
  rw [bucketAt_aggregate _ _ _ _ hj, bucketAt_aggregate _ _ _ _ hj]
  unfold buildMonth
  exact getField_accumulate_insert "proposed" p₁ p₂ c (addMonths a j) _ k

/-! ### Activity of circuits anchored to representative month dates -/

theorem isCircuitActive_addMonths_no_end (a : CalDate) (ha : a.Valid) (c : Circuit)
    (i j : Nat)
    (hs : c.contract_start_date = some (some (addMonths a i)))
    (he : c.contract_end_date = none) :
    isCircuitActive c (addMonths a j) = decide (i ≤ j) := by
  unfold isCircuitActive
  rw [hs, he]
  show dateLe (addMonths a i) (addMonths a j) = decide (i ≤ j)
  by_cases hij : i ≤ j
  · rw [(dateLe_addMonths_iff a ha i j).mpr hij, decide_eq_true hij]
  · rw [decide_eq_false hij]
    cases hB : dateLe (addMonths a i) (addMonths a j) with
    | false => rfl
    | true => exact absurd ((dateLe_addMonths_iff a ha i j).mp hB) hij

theorem isCircuitActive_addMonths_window (a : CalDate) (ha : a.Valid) (c : Circuit)
    (i i' j : Nat)
    (hs : c.contract_start_date = some (some (addMonths a i)))
    (he : c.contract_end_date = some (some (addMonths a i'))) :
    isCircuitActive c (addMonths a j) = (decide (i ≤ j) && decide (j ≤ i')) := by
  unfold isCircuitActive
  rw [hs, he]
  show (dateLe (addMonths a i) (addMonths a j) && dateLe (addMonths a j) (addMonths a i'))
      = (decide (i ≤ j) && decide (j ≤ i'))
  have h1 : dateLe (addMonths a i) (addMonths a j) = decide (i ≤ j) := by
    by_cases hij : i ≤ j
    · rw [(dateLe_addMonths_iff a ha i j).mpr hij, decide_eq_true hij]
    · rw [decide_eq_false hij]
      cases hB : dateLe (addMonths a i) (addMonths a j) with
      | false => rfl
      | true => exact absurd ((dateLe_addMonths_iff a ha i j).mp hB) hij
  have h2 : dateLe (addMonths a j) (addMonths a i') = decide (j ≤ i') := by
    by_cases hij : j ≤ i'
    · rw [(dateLe_addMonths_iff a ha j i').mpr hij, decide_eq_true hij]
    · rw [decide_eq_false hij]
      cases hB : dateLe (addMonths a j) (addMonths a i') with
      | false => rfl
      | true => exact absurd ((dateLe_addMonths_iff a ha j i').mp hB) hij
  rw [h1, h2]

theorem month_bucketAt (e p : List Circuit) (a : CalDate) (j : Nat) (hj : j < 36) :
    (bucketAt (aggregate e p a) j).month = monthLabel a j := by
  rw [bucketAt_aggregate e p a j hj, month_buildMonth]

/-! ### Non-negativity of accumulated totals -/

theorem addToField_nonneg (md : MonthData) (key : String) (cost : ℚ)
    (hmd : AllFieldsNonneg md) (hc : 0 ≤ cost) :
    AllFieldsNonneg (addToField md key cost) := by
  obtain ⟨a1, a2, a3, a4, a5, a6, a7, a8⟩ := hmd
  unfold addToField
  split_ifs <;> refine ⟨?_, ?_, ?_, ?_, ?_, ?_, ?_, ?_⟩ <;>
    first | assumption | exact add_nonneg (by assumption) hc

theorem initMonthData_nonneg (s : String) : AllFieldsNonneg (initMonthData s) :=
  ⟨le_rfl, le_rfl, le_rfl, le_rfl, le_rfl, le_rfl, le_rfl, le_rfl⟩

theorem accumulate_nonneg (pfx : String) (l : List Circuit) (dt : CalDate) (md : MonthData)
    (hmd : AllFieldsNonneg md) (hl : ∀ c ∈ l, 0 ≤ c.monthlycost) :
    AllFieldsNonneg (accumulate pfx l dt md) := by
  induction l generalizing md with
  | nil => exact hmd
  | cons c t ih =>
      rw [accumulate_cons]
      refine ih _ ?_ (fun x hx => hl x (List.mem_cons_of_mem _ hx))
      by_cases hA : isCircuitActive c dt
      · rw [if_pos hA]
        exact addToField_nonneg _ _ _ hmd (hl c (List.mem_cons_self c t))
      · rw [if_neg hA]
        exact hmd

theorem step_noop_of_inactive (c : Circuit) (key : String) (dt : CalDate)
    (h : isCircuitActive c dt = false) (m : MonthData) :
    (if isCircuitActive c dt then addToField m key c.monthlycost else m) = m := by
  rw [h]
  rfl

/-! ## Claim theorems -/

/-- C2: for every (valid) anchor date and every pair of input lists, the
aggregation outputs exactly 36 buckets, and bucket `i`'s label is the year
string of the calendar month `i` months after the anchor's month when that
month is January, and the empty string otherwise. -/
theorem C2_labels (a : CalDate) (ha : a.Valid) (e p : List Circuit) :
    (aggregate e p a).length = 36 ∧
    ∀ j : Nat, j < 36 →
      (bucketAt (aggregate e p a) j).month =
        (if (a.month + j) % 12 = 0
         then toString (a.year + (((a.month + j) / 12 : Nat) : Int))
         else "") := by
  refine ⟨length_aggregate e p a, fun j hj => ?_⟩
  rw [month_bucketAt e p a j hj, monthLabel_eq a ha j]

/-- Witness for C2 at the concrete anchor 2024-01-15: 36 buckets, and bucket
12 (January 2025) carries the label of its year. -/
theorem C2_labels_witness :
    (aggregate [] [] anchor2024).length = 36 ∧
    (bucketAt (aggregate [] [] anchor2024) 12).month =
      (if (anchor2024.month + 12) % 12 = 0
       then toString (anchor2024.year + (((anchor2024.month + 12) / 12 : Nat) : Int))
       else "") :=
  ⟨(C2_labels anchor2024 (by decide) [] []).1,
   (C2_labels anchor2024 (by decide) [] []).2 12 (by decide)⟩

/-- C3: the activity predicate returns false when the start date is absent;
with a parsed start and no end date it holds iff start <= month anchor; with
both dates parsed it holds iff start <= month anchor <= end; and the date
comparison is inclusive (reflexive) at both bounds. -/
theorem C3_activity_cases (c : Circuit) (m : CalDate) :
    (c.contract_start_date = none → isCircuitActive c m = false) ∧
    (∀ s : CalDate, c.contract_start_date = some (some s) →
      c.contract_end_date = none →
      (isCircuitActive c m = true ↔ dateLe s m = true)) ∧
    (∀ s en : CalDate, c.contract_start_date = some (some s) →
      c.contract_end_date = some (some en) →
      (isCircuitActive c m = true ↔ (dateLe s m = true ∧ dateLe m en = true))) ∧
    (∀ d : CalDate, dateLe d d = true) := by
  refine ⟨fun h => isCircuitActive_none_start c m h,
    fun s hs he => ?_, fun s en hs he => ?_, fun d => ?_⟩
  · unfold isCircuitActive
    rw [hs, he]
    exact Iff.rfl
  · unfold isCircuitActive
    rw [hs, he]
    show (dateLe s m && dateLe m en) = true ↔ _
    exact iff_of_eq (Bool.and_eq_true _ _)
  · unfold dateLe
    split_ifs <;> first | rfl | omega | simp

/-- Witness for C3 at a concrete circuit with both bounds: activity at the
end date itself is equivalent to the two inclusive comparisons. -/
theorem C3_activity_witness :
    isCircuitActive circuitMpls ⟨2024, 2, 15⟩ = true ↔
      (dateLe ⟨2024, 0, 15⟩ ⟨2024, 2, 15⟩ = true ∧
       dateLe ⟨2024, 2, 15⟩ ⟨2024, 2, 15⟩ = true) :=
  (C3_activity_cases circuitMpls ⟨2024, 2, 15⟩).2.2.1 ⟨2024, 0, 15⟩ ⟨2024, 2, 15⟩ rfl rfl

/-- C6: an item with no contract start date contributes nothing: removing it
from either input list leaves every one of the 36 buckets unchanged, for
every anchor date and all companion items. -/
theorem C6_no_start (a : CalDate) (c : Circuit) (h : c.contract_start_date = none)
    (e₁ e₂ q p₁ p₂ : List Circuit) :
    aggregate (e₁ ++ c :: e₂) q a = aggregate (e₁ ++ e₂) q a ∧
    aggregate q (p₁ ++ c :: p₂) a = aggregate q (p₁ ++ p₂) a := by
  constructor
  · exact aggregate_insert_noop_existing a e₁ e₂ q c
      (fun dt m => step_noop_of_inactive c _ dt (isCircuitActive_none_start c dt h) m)
  · exact aggregate_insert_noop_proposed a q p₁ p₂ c
      (fun dt m => step_noop_of_inactive c _ dt (isCircuitActive_none_start c dt h) m)

/-- Witness for C6: the start-less item inserted into either list of a
concrete aggregation changes nothing. -/
theorem C6_no_start_witness :
    aggregate ([circuitMpls] ++ circuitNoStart :: []) [] anchor2024 =
      aggregate ([circuitMpls] ++ []) [] anchor2024 ∧
    aggregate [] ([] ++ circuitNoStart :: [circuitMpls]) anchor2024 =
      aggregate [] ([] ++ [circuitMpls]) anchor2024 :=
  C6_no_start anchor2024 circuitNoStart rfl [circuitMpls] [] [] [] [circuitMpls]

/-- C7: when both contract dates are present but start > end, the activity
predicate is false at every month-anchor date, and no error occurs (the
predicate is total). -/
theorem C7_inverted_range (c : Circuit) (s en : CalDate)
    (hs : c.contract_start_date = some (some s))
    (he : c.contract_end_date = some (some en))
    (hgt : dateLe s en = false) :
    ∀ m : CalDate, isCircuitActive c m = false := by
  intro m
  unfold isCircuitActive
  rw [hs, he]
  show (dateLe s m && dateLe m en) = false
  cases h1 : dateLe s m with
  | false => rfl
  | true =>
      cases h2 : dateLe m en with
      | false => rfl
      | true => exact absurd (dateLe_trans h1 h2) (by simp [hgt])

/-- Witness for C7: the inverted-range item is inactive at a date inside the
inverted interval. -/
theorem C7_inverted_range_witness :
    isCircuitActive circuitInverted ⟨2024, 1, 15⟩ = false :=
  C7_inverted_range circuitInverted ⟨2024, 2, 15⟩ ⟨2024, 0, 15⟩ rfl rfl (by decide)
    ⟨2024, 1, 15⟩

/-- C8: an item with an unparsable (Invalid Date) start or end string never
becomes active, so the aggregation still yields the full 36-bucket result
and the item contributes nothing; nothing is thrown. -/
theorem C8_malformed_dates (a : CalDate) (c : Circuit)
    (h : c.contract_start_date = some none ∨ c.contract_end_date = some none)
    (e₁ e₂ q p₁ p₂ : List Circuit) :
    (aggregate (e₁ ++ c :: e₂) q a).length = 36 ∧
    aggregate (e₁ ++ c :: e₂) q a = aggregate (e₁ ++ e₂) q a ∧
    (aggregate q (p₁ ++ c :: p₂) a).length = 36 ∧
    aggregate q (p₁ ++ c :: p₂) a = aggregate q (p₁ ++ p₂) a := by
  refine ⟨length_aggregate _ _ _, ?_, length_aggregate _ _ _, ?_⟩
  · exact aggregate_insert_noop_existing a e₁ e₂ q c
      (fun dt m => step_noop_of_inactive c _ dt (isCircuitActive_invalid c dt h) m)
  · exact aggregate_insert_noop_proposed a q p₁ p₂ c
      (fun dt m => step_noop_of_inactive c _ dt (isCircuitActive_invalid c dt h) m)

/-- Witness for C8: a concrete item whose end-date string is unparsable. -/
theorem C8_malformed_dates_witness :
    (aggregate ([] ++ circuitBadEnd :: []) [] anchor2024).length = 36 ∧
    aggregate ([] ++ circuitBadEnd :: []) [] anchor2024 =
      aggregate ([] ++ []) [] anchor2024 ∧
    (aggregate [] ([] ++ circuitBadEnd :: []) anchor2024).length = 36 ∧
    aggregate [] ([] ++ circuitBadEnd :: []) anchor2024 =
      aggregate [] ([] ++ []) anchor2024 :=
  C8_malformed_dates anchor2024 circuitBadEnd (Or.inr rfl) [] [] [] [] []

/-- C9: when every item's monthly cost is non-negative, every one of the
eight numeric fields of every one of the 36 buckets is non-negative (each
starts at zero and is only increased by item costs). -/
theorem C9_nonneg (a : CalDate) (e p : List Circuit)
    (hec : ∀ c ∈ e, 0 ≤ c.monthlycost) (hpc : ∀ c ∈ p, 0 ≤ c.monthlycost) :
    (aggregate e p a).length = 36 ∧ ∀ md ∈ aggregate e p a, AllFieldsNonneg md := by
  refine ⟨length_aggregate e p a, fun md hmd => ?_⟩
  unfold aggregate at hmd
  rw [List.mem_map] at hmd
  obtain ⟨pr, hpr, rfl⟩ := hmd
  unfold buildMonth
  exact accumulate_nonneg _ _ _ _
    (accumulate_nonneg _ _ _ _ (initMonthData_nonneg _) hec) hpc

/-- Witness for C9 on a concrete aggregation with non-negative costs. -/
theorem C9_nonneg_witness :
    AllFieldsNonneg ((aggregate [circuitMpls] [circuitFromMonth1] anchor2024).get
      ⟨0, by rw [length_aggregate]; omega⟩) :=
  (C9_nonneg anchor2024 [circuitMpls] [circuitFromMonth1] (by decide) (by decide)).2
    _ (List.get_mem _ _ _)

/-- C10: the four existing* fields of every bucket depend only on the
existing-items list, and the four proposed* fields only on the
proposed-items list: the two accumulation passes write disjoint fields. -/
theorem C10_frame (a : CalDate) :
    (∀ e p p' : List Circuit,
      (aggregate e p a).map existingFields = (aggregate e p' a).map existingFields) ∧
    (∀ e e' p : List Circuit,
      (aggregate e p a).map proposedFields = (aggregate e' p a).map proposedFields) := by
  constructor
  · intro e p p'
    unfold aggregate
    rw [List.map_map, List.map_map]
    apply List.map_congr_left
    intro pr _
    simp only [Function.comp_apply]
    rw [existingFields_buildMonth, existingFields_buildMonth]
  · intro e e' p
    unfold aggregate
    rw [List.map_map, List.map_map]
    apply List.map_congr_left
    intro pr _
    simp only [Function.comp_apply]
    exact proposedFields_buildMonth _ _ e e' p

/-- C1 as stated fails on the code: with anchor 2024-01-15, the worked
example's item of type "MPLS" yields the derived key "existingMPLS", which
matches no field of the bucket record (the field is spelled "existingMpls"),
so the item changes nothing at all and bucket 0's existingMpls stays 0
instead of gaining 100. -/
theorem C1_counterexample :
    aggregate [circuitMPLS] [] anchor2024 = aggregate [] [] anchor2024 ∧
    ¬ ((bucketAt (aggregate [circuitMPLS] [] anchor2024) 0).existingMpls
        = (bucketAt (aggregate [] [] anchor2024) 0).existingMpls + 100) := by
  refine ⟨by decide, ?_⟩
  have h1 : (bucketAt (aggregate [circuitMPLS] [] anchor2024) 0).existingMpls = 0 := by decide
  have h2 : (bucketAt (aggregate [] [] anchor2024) 0).existingMpls = 0 := by decide
  rw [h1, h2]
  norm_num

/-- C1 amended: with the type spelled "Mpls" (the one capitalization whose
stripped form completes the field name "existingMpls"), the item adds 100
to existingMpls of buckets 0, 1 and 2 and leaves the existingMpls of every
bucket at index >= 3 unaffected, whatever the companion items. -/
theorem C1_amended (e₁ e₂ p : List Circuit) (j : Nat) (hj : j < 36) :
    (bucketAt (aggregate (e₁ ++ circuitMpls :: e₂) p anchor2024) j).existingMpls
      = (bucketAt (aggregate (e₁ ++ e₂) p anchor2024) j).existingMpls
        + (if j ≤ 2 then 100 else 0) := by
  show getField (bucketAt (aggregate (e₁ ++ circuitMpls :: e₂) p anchor2024) j) "existingMpls"
      = getField (bucketAt (aggregate (e₁ ++ e₂) p anchor2024) j) "existingMpls"
        + (if j ≤ 2 then 100 else 0)
  have hact := isCircuitActive_addMonths_window anchor2024 (by decide) circuitMpls 0 2 j rfl rfl
  rw [getField_bucket_insert_existing anchor2024 e₁ e₂ p circuitMpls j hj "existingMpls", hact]
  congr 1
  by_cases hij : j ≤ 2
  · rw [if_pos (show (decide (0 ≤ j) && decide (j ≤ 2)) = true by simp [hij]),
      if_pos (by decide), if_pos hij]
    rfl
  · rw [if_neg (show ¬ (decide (0 ≤ j) && decide (j ≤ 2)) = true by simp [hij]),
      if_neg hij]

/-- Witness for the amended C1 at bucket 0. -/
theorem C1_amended_witness :
    (bucketAt (aggregate ([] ++ circuitMpls :: []) [] anchor2024) 0).existingMpls
      = (bucketAt (aggregate ([] ++ []) [] anchor2024) 0).existingMpls
        + (if 0 ≤ 2 then 100 else 0) :=
  C1_amended [] [] [] 0 (by decide)

/-- C4: the example type "Dedicated Internet Access" strips to
"DedicatedInternetAccess"; and any item whose stripped type matches none of
the recognized field suffixes is silently dropped: inserting it into either
input list leaves the whole 36-bucket output unchanged, whatever its active
status, and nothing is thrown. -/
theorem C4_unrecognized (a : CalDate) (c : Circuit)
    (hn : normalizeType c.type ∉ (["Mpls", "Dia", "Broadband", "Lte"] : List String))
    (e₁ e₂ q p₁ p₂ : List Circuit) :
    normalizeType "Dedicated Internet Access" = "DedicatedInternetAccess" ∧
    aggregate (e₁ ++ c :: e₂) q a = aggregate (e₁ ++ e₂) q a ∧
    aggregate q (p₁ ++ c :: p₂) a = aggregate q (p₁ ++ p₂) a := by
  have hmemE : ("existing" ++ normalizeType c.type) ∉ recognizedKeys := by
    intro hmem
    rcases (existing_key_mem _).mp hmem with h | h | h | h <;>
      exact hn (by rw [h]; decide)
  have hmemP : ("proposed" ++ normalizeType c.type) ∉ recognizedKeys := by
    intro hmem
    rcases (proposed_key_mem _).mp hmem with h | h | h | h <;>
      exact hn (by rw [h]; decide)
  refine ⟨by decide, ?_, ?_⟩
  · apply aggregate_insert_noop_existing
    intro dt m
    by_cases hA : isCircuitActive c dt
    · rw [if_pos hA, addToField_notMem _ _ _ hmemE]
    · rw [if_neg hA]
  · apply aggregate_insert_noop_proposed
    intro dt m
    by_cases hA : isCircuitActive c dt
    · rw [if_pos hA, addToField_notMem _ _ _ hmemP]
    · rw [if_neg hA]

/-- Witness for C4 with the "Dedicated Internet Access" item. -/
theorem C4_unrecognized_witness :
    normalizeType "Dedicated Internet Access" = "DedicatedInternetAccess" ∧
    aggregate ([] ++ circuitDIA :: []) [] anchor2024 = aggregate ([] ++ []) [] anchor2024 ∧
    aggregate [] ([] ++ circuitDIA :: []) anchor2024 = aggregate [] ([] ++ []) anchor2024 :=
  C4_unrecognized anchor2024 circuitDIA (by decide) [] [] [] [] []

/-- C5: an item with a recognized stripped type, start date equal to the
representative date of month index `i` and no end date adds its monthly
cost exactly once to its field of bucket `i` and of every bucket `j >= i`,
and leaves that field of every bucket before `i` unchanged (in whichever
input list the item sits). -/
theorem C5_anchor_start (a : CalDate) (ha : a.Valid) (i : Nat) (hi : i < 36) (c : Circuit)
    (hs : c.contract_start_date = some (some (addMonths a i)))
    (he : c.contract_end_date = none)
    (hrec : normalizeType c.type ∈ (["Mpls", "Dia", "Broadband", "Lte"] : List String)) :
    (∀ (e₁ e₂ p : List Circuit) (j : Nat), j < 36 →
      getField (bucketAt (aggregate (e₁ ++ c :: e₂) p a) j) ("existing" ++ normalizeType c.type)
        = getField (bucketAt (aggregate (e₁ ++ e₂) p a) j) ("existing" ++ normalizeType c.type)
          + (if i ≤ j then c.monthlycost else 0)) ∧
    (∀ (q p₁ p₂ : List Circuit) (j : Nat), j < 36 →
      getField (bucketAt (aggregate q (p₁ ++ c :: p₂) a) j) ("proposed" ++ normalizeType c.type)
        = getField (bucketAt (aggregate q (p₁ ++ p₂) a) j) ("proposed" ++ normalizeType c.type)
          + (if i ≤ j then c.monthlycost else 0)) := by
  have hrec' : normalizeType c.type = "Mpls" ∨ normalizeType c.type = "Dia" ∨
      normalizeType c.type = "Broadband" ∨ normalizeType c.type = "Lte" := by
    simpa using hrec
  have hkE : ("existing" ++ normalizeType c.type) ∈ recognizedKeys :=
    (existing_key_mem _).mpr hrec'
  have hkP : ("proposed" ++ normalizeType c.type) ∈ recognizedKeys :=
    (proposed_key_mem _).mpr hrec'
  constructor
  · intro e₁ e₂ p j hj
    rw [getField_bucket_insert_existing a e₁ e₂ p c j hj,
      isCircuitActive_addMonths_no_end a ha c i j hs he]
    congr 1
    by_cases hij : i ≤ j
    · rw [if_pos (decide_eq_true hij), if_pos ⟨rfl, hkE⟩, if_pos hij]
    · rw [if_neg (fun hc => hij (of_decide_eq_true hc)), if_neg hij]
  · intro q p₁ p₂ j hj
    rw [getField_bucket_insert_proposed a q p₁ p₂ c j hj,
      isCircuitActive_addMonths_no_end a ha c i j hs he]
    congr 1
    by_cases hij : i ≤ j
    · rw [if_pos (decide_eq_true hij), if_pos ⟨rfl, hkP⟩, if_pos hij]
    · rw [if_neg (fun hc => hij (of_decide_eq_true hc)), if_neg hij]

/-- Witness for C5 at month index 1, read off at bucket 2. -/
theorem C5_anchor_start_witness :
    getField (bucketAt (aggregate ([] ++ circuitFromMonth1 :: []) [] anchor2024) 2)
        ("existing" ++ normalizeType circuitFromMonth1.type)
      = getField (bucketAt (aggregate ([] ++ []) [] anchor2024) 2)
          ("existing" ++ normalizeType circuitFromMonth1.type)
        + (if 1 ≤ 2 then circuitFromMonth1.monthlycost else 0) :=
  (C5_anchor_start anchor2024 (by decide) 1 (by decide) circuitFromMonth1 rfl rfl
    (by decide)).1 [] [] [] 2 (by decide)
